import Mathlib

/-!
Verification of the echo-server repository (cmd/echo-server/main.go).

The Go program is shallowly embedded: every definition below mirrors a
function of the source file.  Byte output is modelled as `List UInt8`
(the octets written to the response writer), strings written through
`fmt.Fprintf` are rendered via an explicit UTF-8 encoder, the mutable
request body stream is modelled by explicit state passing (a request
carries the unread remainder of its body), and the `http.Header` /
environment maps are association lists.
-/

namespace EchoServer

/-- UTF-8 encoding of one character, as written by Go when printing a
string (Go strings are UTF-8 byte sequences). -/
def utf8Bytes (c : Char) : List UInt8 :=
  let n := c.toNat
  if n < 0x80 then
    [UInt8.ofNat n]
  else if n < 0x800 then
    [UInt8.ofNat (0xC0 ||| (n >>> 6)), UInt8.ofNat (0x80 ||| (n &&& 0x3F))]
  else if n < 0x10000 then
    [UInt8.ofNat (0xE0 ||| (n >>> 12)), UInt8.ofNat (0x80 ||| ((n >>> 6) &&& 0x3F)),
     UInt8.ofNat (0x80 ||| (n &&& 0x3F))]
  else
    [UInt8.ofNat (0xF0 ||| (n >>> 18)), UInt8.ofNat (0x80 ||| ((n >>> 12) &&& 0x3F)),
     UInt8.ofNat (0x80 ||| ((n >>> 6) &&& 0x3F)), UInt8.ofNat (0x80 ||| (n &&& 0x3F))]

/-- The bytes a Go string writes to an `io.Writer`. -/
def strBytes (s : String) : List UInt8 :=
  (s.data.map utf8Bytes).flatten

/-- `http.Header`: a map from (canonical) header name to the ordered
list of values, modelled as an association list with distinct keys. -/
abbrev Headers := List (String × List String)

/-- Process environment, as the key/value pairs of `os.Environ()`. -/
abbrev Env := List (String × String)

/-- Go map lookup `h[key]` (the zero value `nil` slice when absent). -/
def lookupValues (h : Headers) (key : String) : List String :=
  ((h.find? (fun p => p.1 == key)).map Prod.snd).getD []

/-- ASCII lower-casing of one character (`c + 'a' - 'A'` on upper case). -/
def asciiLowerChar (c : Char) : Char :=
  if 65 ≤ c.toNat ∧ c.toNat ≤ 90 then Char.ofNat (c.toNat + 32) else c

/-- ASCII upper-casing of one character. -/
def asciiUpperChar (c : Char) : Char :=
  if 97 ≤ c.toNat ∧ c.toNat ≤ 122 then Char.ofNat (c.toNat - 32) else c

/-- ASCII lower-casing of a string. -/
def asciiLowerStr (s : String) : String :=
  String.mk (s.data.map asciiLowerChar)

/-- `strings.EqualFold`, restricted to the simple (ASCII) folding that is
exercised by the program (it only ever compares against `"false"`). -/
def eqFold (a b : String) : Bool :=
  a.data.map asciiLowerChar == b.data.map asciiLowerChar

/-- `textproto.validHeaderFieldByte`: RFC 7230 token characters. -/
def isTokenChar (c : Char) : Bool :=
  let n := c.toNat
  (48 ≤ n && n ≤ 57) || (65 ≤ n && n ≤ 90) || (97 ≤ n && n ≤ 122) ||
    [33, 35, 36, 37, 38, 39, 42, 43, 45, 46, 94, 95, 96, 124, 126].contains n

/-- The canonicalisation loop of `textproto.CanonicalMIMEHeaderKey`:
upper-case a letter at the start or after a hyphen, lower-case it
otherwise. -/
def canonChars : Bool → List Char → List Char
  | _, [] => []
  | upper, c :: cs =>
    let c2 := if upper then asciiUpperChar c else asciiLowerChar c
    c2 :: canonChars (c2 == '-') cs

/-- `textproto.CanonicalMIMEHeaderKey`: returns the key unchanged when it
contains a non-token byte, otherwise canonicalises its case. -/
def canonicalMIMEHeaderKey (s : String) : String :=
  if s.data.all isTokenChar then String.mk (canonChars true s.data) else s

/-- `http.Header.Set`: replace the entry for the canonical key by the
single given value (map overwrite). -/
def setHeader (hs : Headers) (k v : String) : Headers :=
  let ck := canonicalMIMEHeaderKey k
  if hs.any (fun p => p.1 == ck) then
    hs.map (fun p => if p.1 == ck then (ck, [v]) else p)
  else
    hs ++ [(ck, [v])]

/-- `http.Header.Add`: append a value to the entry for the canonical key. -/
def addHeader (hs : Headers) (k v : String) : Headers :=
  let ck := canonicalMIMEHeaderKey k
  if hs.any (fun p => p.1 == ck) then
    hs.map (fun p => if p.1 == ck then (p.1, p.2 ++ [v]) else p)
  else
    hs ++ [(ck, [v])]

/-- `http.Header.Get`: first value for the canonical key, `""` if none. -/
def headerGet (h : Headers) (k : String) : String :=
  (lookupValues h (canonicalMIMEHeaderKey k)).headD ""

/-- `os.Getenv`: value of the variable, `""` when unset. -/
def envGet (env : Env) (k : String) : String :=
  ((env.find? (fun p => p.1 == k)).map Prod.snd).getD ""

/-- An inbound HTTP request.  `body` is the unread remainder of the body
stream; `wsUpgrade` records the outcome of the library predicate
`websocket.IsWebSocketUpgrade`. -/
structure Request where
  method : String
  url : String
  proto : String
  host : String
  header : Headers
  body : List UInt8
  urlPath : String
  wsUpgrade : Bool
deriving DecidableEq

/-- `printHeaders` key ordering: `sort.Strings` over the map's keys. -/
def sortedKeys (h : Headers) : List String :=
  (h.map Prod.fst).insertionSort (fun a b => a ≤ b)

/-- The `Name: value` pairs emitted by `printHeaders`, in emission order:
keys sorted, the values of one key in stored (arrival) order. -/
def headerLines (h : Headers) : List (String × String) :=
  ((sortedKeys h).map (fun key => (lookupValues h key).map (fun v => (key, v)))).flatten

/-- `printHeaders`: one `Name: value` line per value, keys sorted. -/
def printHeaders (h : Headers) : String :=
  String.join ((headerLines h).map (fun p => p.1 ++ ": " ++ p.2 ++ "\n"))

/-- The head section written by `writeRequest` before the body: request
line, blank line, `Host:` line, sorted header lines. -/
def requestHead (req : Request) : List UInt8 :=
  strBytes (req.method ++ " " ++ req.url ++ " " ++ req.proto ++ "\n")
    ++ strBytes "\n"
    ++ strBytes ("Host: " ++ req.host ++ "\n")
    ++ strBytes (printHeaders req.header)

/-- `writeRequest`: renders the request to the writer and, via
`io.Copy(&body, req.Body)`, consumes the body stream (the returned
request carries the drained stream). -/
def writeRequest (req : Request) : List UInt8 × Request :=
  let body := req.body
  (if body.length > 0 then requestHead req ++ strBytes "\n" ++ body else requestHead req,
   { req with body := [] })

/-- The `LOG_HTTP_BODY` capture in `handler`: read the whole body into a
buffer, then replace `req.Body` by a reader over the buffered copy. -/
def logBodyCapture (req : Request) : Request :=
  let buf := req.body
  let drained : Request := { req with body := [] }
  { drained with body := buf }

/-- `websocket.TextMessage`. -/
def textMessage : Nat := 1

/-- `websocket.BinaryMessage`. -/
def binaryMessage : Nat := 2

/-- A WebSocket frame: message type and payload. -/
structure Frame where
  ftype : Nat
  payload : List UInt8
deriving DecidableEq

/-- The payload of the frame written before the echo loop: the `message`
variable of `serveWebSocket`, which stays `nil` when hostname disclosure
is disabled. -/
def wsGreetingPayload (sendServerHostname : Bool) (hostname : Except String String) : List UInt8 :=
  if sendServerHostname then
    match hostname with
    | .ok host => strBytes ("Request served by " ++ host)
    | .error e => strBytes ("Server hostname unknown: " ++ e)
  else []

/-- `serveWebSocket` on an error-free session: the frames written to the
client are the unconditional initial text frame followed by the verbatim
echo (same type, same payload) of each inbound frame. -/
def serveWebSocket (sendServerHostname : Bool) (hostname : Except String String)
    (inbound : List Frame) : List Frame :=
  Frame.mk textMessage (wsGreetingPayload sendServerHostname hostname) :: inbound

/-- One server-sent event as assembled by `writeSSE`. -/
structure SSEEvent where
  etype : String
  data : List UInt8
  id : Nat
deriving DecidableEq

/-- `writeSSE`: increments the id counter, then appends the event. -/
def writeSSE (st : Nat × List SSEEvent) (event : String) (data : List UInt8) :
    Nat × List SSEEvent :=
  let newId := st.1 + 1
  (newId, st.2 ++ [⟨event, data, newId⟩])

/-- The four `Set` calls of `serveSSE` on the response writer. -/
def sseHeaders (hdrs : Headers) : Headers :=
  setHeader (setHeader (setHeader (setHeader hdrs
    "Content-Type" "text/event-stream")
    "Cache-Control" "no-cache")
    "Connection" "keep-alive")
    "Access-Control-Allow-Origin" "*"

/-- `serveSSE`, with the timer ticks observed before cancellation passed
explicitly: a `server` event only when disclosure is enabled and the
hostname lookup succeeds, then the `request` event, then one `time` event
per tick. -/
def serveSSE (sendServerHostname : Bool) (hostname : Except String String)
    (echoData : List UInt8) (ticks : List String) : List SSEEvent :=
  let st : Nat × List SSEEvent := (0, [])
  let st :=
    if sendServerHostname then
      match hostname with
      | .ok host => writeSSE st "server" (strBytes host)
      | .error _ => st
    else st
  let st := writeSSE st "request" echoData
  (ticks.foldl (fun s t => writeSSE s "time" (strBytes t)) st).2

/-- A plain HTTP response: status, headers, body bytes. -/
structure HTTPResponse where
  status : Nat
  headers : Headers
  body : List UInt8
deriving DecidableEq

/-- The hostname line `serveHTTP` writes before the echo (the success or
failure branch of the `os.Hostname()` call). -/
def hostnameLine (hostname : Except String String) : List UInt8 :=
  match hostname with
  | .ok host => strBytes ("Request served by " ++ host ++ "\n\n")
  | .error e => strBytes ("Server hostname unknown: " ++ e ++ "\n\n")

/-- `serveHTTP`: adds `Content-Type: text/plain`, writes status 200, the
optional hostname line, then the rendered request. -/
def serveHTTP (hdrs : Headers) (sendServerHostname : Bool)
    (hostname : Except String String) (req : Request) : HTTPResponse :=
  let hdrs := addHeader hdrs "Content-Type" "text/plain"
  let pre := if sendServerHostname then hostnameLine hostname else []
  ⟨200, hdrs, pre ++ (writeRequest req).1⟩

/-- `path.Base` from the Go standard library. -/
def goPathBase (p : String) : String :=
  if p == "" then "."
  else
    let rstripped := p.data.reverse.dropWhile (fun c => c == '/')
    let base := (rstripped.takeWhile (fun c => c != '/')).reverse
    if base.isEmpty then "/" else String.mk base

/-- The four dispatch targets of `handler`. -/
inductive EchoRoute where
  | websocket
  | frontend
  | sse
  | plainHTTP
deriving DecidableEq

/-- The first-match-wins dispatch chain at the end of `handler`. -/
def dispatch (req : Request) : EchoRoute :=
  if req.wsUpgrade then .websocket
  else if goPathBase req.urlPath == ".ws" then .frontend
  else if goPathBase req.urlPath == ".sse" then .sse
  else .plainHTTP

/-- `strings.CutPrefix(key, "SEND_HEADER_")`: the remainder of the
variable name when it carries the fixed prefix. -/
def sendHeaderName (key : String) : Option String :=
  if key.data.take ("SEND_HEADER_".data.length) = "SEND_HEADER_".data then
    some (String.mk (key.data.drop ("SEND_HEADER_".data.length)))
  else none

/-- `strings.ReplaceAll(name, "_", "-")`. -/
def underscoreToHyphen (s : String) : String :=
  String.mk (s.data.map (fun c => if c == '_' then '-' else c))

/-- One iteration of the environment scan in `handler`. -/
def applySendHeader (hs : Headers) (kv : String × String) : Headers :=
  match sendHeaderName kv.1 with
  | some name => setHeader hs (underscoreToHyphen name) kv.2
  | none => hs

/-- The whole environment scan: every `SEND_HEADER_*` variable is `Set`
on the response writer, in environment order. -/
def buildSendHeaders (env : Env) (hs : Headers) : Headers :=
  env.foldl applySendHeader hs

/-- The effective hostname-disclosure setting string: the env variable,
overridden by the request header when `Get` returns a non-empty value. -/
def effectiveHostnameSetting (env : Env) (h : Headers) : String :=
  let s := envGet env "SEND_SERVER_HOSTNAME"
  let v := headerGet h "X-Send-Server-Hostname"
  if v != "" then v else s

/-- `sendServerHostname := !strings.EqualFold(s, "false")`. -/
def sendServerHostnameFlag (env : Env) (h : Headers) : Bool :=
  !(eqFold (effectiveHostnameSetting env h) "false")

/-- The branch-specific payload produced by `handler`. -/
inductive Served where
  | websocket (frames : List Frame)
  | frontend
  | sse (events : List SSEEvent)
  | plain (status : Nat) (body : List UInt8)
deriving DecidableEq

/-- The header block of the `101 Switching Protocols` handshake that
`upgrader.Upgrade` (gorilla/websocket) writes directly to the hijacked
connection on a successful upgrade.  The call site passes a nil
`responseHeader` (main.go:194) and the library never reads the
`ResponseWriter`'s header map, so that map is discarded; the
`Sec-WebSocket-Accept` value, computed from the client's nonce, is
outside the model. -/
def wsHandshakeHeaders : Headers :=
  [("Upgrade", ["websocket"]), ("Connection", ["Upgrade"])]

/-- `handler`: body capture under `LOG_HTTP_BODY`, disclosure resolution,
environment header scan, then dispatch.  The hostname lookup result, the
inbound WebSocket frames and the SSE ticks are the external events of the
session, passed explicitly.  Returns the header block of the response
actually sent to the client and the branch payload; on a successful
WebSocket upgrade the hijacking handshake discards the response-writer
map, so that branch's response carries only the handshake headers. -/
def handler (env : Env) (hostname : Except String String) (req : Request)
    (inbound : List Frame) (ticks : List String) : Headers × Served :=
  let req := if envGet env "LOG_HTTP_BODY" != "" then logBodyCapture req else req
  let ssh := sendServerHostnameFlag env req.header
  let hdrs := buildSendHeaders env []
  match dispatch req with
  | .websocket => (wsHandshakeHeaders, .websocket (serveWebSocket ssh hostname inbound))
  | .frontend => (addHeader hdrs "Content-Type" "text/html", .frontend)
  | .sse => (sseHeaders hdrs, .sse (serveSSE ssh hostname (writeRequest req).1 ticks))
  | .plainHTTP =>
    let resp := serveHTTP hdrs ssh hostname req
    (resp.headers, .plain resp.status resp.body)

/-- The gRPC `EchoRequest` message. -/
structure EchoRequest where
  message : String
deriving DecidableEq

/-- The gRPC `EchoResponse` message. -/
structure EchoResponse where
  message : String
deriving DecidableEq

/-- `grpcEchoServer.Echo`: returns the request message and a nil error. -/
def Echo (req : EchoRequest) : EchoResponse × Option String :=
  ({ message := req.message }, none)

/-- `strconv.Atoi` digit-run parsing (the program only reaches three-digit
values, far below the overflow bound). -/
def digitsVal (cs : List Char) : Option Nat :=
  if cs.isEmpty then none
  else if cs.all (fun c => c.isDigit) then
    some (cs.foldl (fun acc c => acc * 10 + (c.toNat - 48)) 0)
  else none

/-- `strconv.Atoi`: optional sign then a non-empty digit run. -/
def goAtoi (s : String) : Option Int :=
  match s.data with
  | [] => none
  | c :: cs =>
    if c == '-' then (digitsVal cs).map (fun n => -(n : Int))
    else if c == '+' then (digitsVal cs).map (fun n => (n : Int))
    else (digitsVal (c :: cs)).map (fun n => (n : Int))

/-- Body written for an invalid `code` query parameter. -/
def invalidCodeBody : String := "\x7b\"error\":\"Invalid status code\"\x7d"

/-- Body written for a valid forced error code. -/
def forcedErrorBody (code : Int) : String :=
  "\x7b\"error\":\"This is a forced error with status " ++ toString code ++ "\"\x7d"

/-- `throwErrorHandler`: parses the `code` query parameter (`""` when
absent) and writes the forced status or a 400 error. -/
def throwErrorHandler (codeParam : String) : Nat × String :=
  match goAtoi codeParam with
  | none => (400, invalidCodeBody)
  | some code =>
    if code < 100 ∨ code > 599 then (400, invalidCodeBody)
    else (code.toNat, forcedErrorBody code)

/-- The handlers `createRouter` can route a request to. -/
inductive RouteTarget where
  | listPets
  | createPets
  | showPetById
  | health
  | throwRoute
  | echoDefault
deriving DecidableEq

/-- A `/v1/pets/{petId}` path: one further non-empty slash-free segment. -/
def isPetByIdPath (p : String) : Bool :=
  p.data.take ("/v1/pets/".data.length) == "/v1/pets/".data &&
    (let rest := p.data.drop ("/v1/pets/".data.length)
     !rest.isEmpty && rest.all (fun c => c != '/'))

/-- `createRouter` route matching, in registration order, with the
`PathPrefix("/")` echo handler as the catch-all. -/
def routeFor (method p : String) : RouteTarget :=
  if p == "/v1/pets" && method == "GET" then .listPets
  else if p == "/v1/pets" && method == "POST" then .createPets
  else if isPetByIdPath p && method == "GET" then .showPetById
  else if p == "/health" && method == "GET" then .health
  else if p == "/throw" && method == "GET" then .throwRoute
  else .echoDefault

/-- A sample request used by witnesses and counterexamples. -/
def sampleRequest : Request :=
  { method := "GET"
    url := "/test"
    proto := "HTTP/1.1"
    host := "example.com"
    header := [("Accept", ["text/plain"]), ("X-Token", ["a", "b"])]
    body := [104, 105]
    urlPath := "/test"
    wsUpgrade := false }

/-- A sample WebSocket-upgrade request. -/
def wsSampleRequest : Request := { sampleRequest with wsUpgrade := true }

/-- A sample request whose final path segment is `.sse`. -/
def sseSampleRequest : Request :=
  { sampleRequest with url := "/x/.sse", urlPath := "/x/.sse" }

/-- The `time` events the ticker loop of `serveSSE` appends, starting
from counter value `n`. -/
def timeEvs (n : Nat) : List String → List SSEEvent
  | [] => []
  | t :: ts => ⟨"time", strBytes t, n + 1⟩ :: timeEvs (n + 1) ts

/-- Sample environment: the process-wide flag set to a non-"false" value. -/
def envSampleC6 : Env := [("SEND_SERVER_HOSTNAME", "x")]

/-- Sample request headers carrying a mixed-case per-request override. -/
def headerSampleC6 : Headers := [("X-Send-Server-Hostname", ["FaLsE"])]

/-- Sample header map, keys out of lexicographic order. -/
def headersSampleA : Headers := [("X-Token", ["a", "b"]), ("Accept", ["text/plain"])]

/-- The same header map with the opposite arrival order. -/
def headersSampleB : Headers := [("Accept", ["text/plain"]), ("X-Token", ["a", "b"])]

/- ------------------------------------------------------------------ -/
/- Theorems.                                                          -/
/- ------------------------------------------------------------------ -/

theorem timeEvs_length (ticks : List String) :
    ∀ n, (timeEvs n ticks).length = ticks.length := by
  induction ticks with
  | nil => intro n; rfl
  | cons t ts ih => intro n; simp [timeEvs, ih]

theorem timeEvs_map_id (ticks : List String) :
    ∀ n, (timeEvs n ticks).map SSEEvent.id = List.range' (n + 1) ticks.length := by
  induction ticks with
  | nil => intro n; rfl
  | cons t ts ih => intro n; simp [timeEvs, ih, List.range']

theorem timeEvs_map_etype (ticks : List String) :
    ∀ n, (timeEvs n ticks).map SSEEvent.etype = ticks.map (fun _ => "time") := by
  induction ticks with
  | nil => intro n; rfl
  | cons t ts ih => intro n; simp [timeEvs, ih]

theorem sseFoldl_timeEvs (ticks : List String) :
    ∀ (n : Nat) (evs : List SSEEvent),
      ticks.foldl (fun s t => writeSSE s "time" (strBytes t)) (n, evs)
        = (n + ticks.length, evs ++ timeEvs n ticks) := by
  induction ticks with
  | nil => intro n evs; simp [timeEvs]
  | cons t ts ih =>
    intro n evs
    rw [List.foldl_cons]
    have hw : writeSSE (n, evs) "time" (strBytes t)
        = (n + 1, evs ++ [⟨"time", strBytes t, n + 1⟩]) := rfl
    rw [hw, ih]
    refine Prod.ext ?_ ?_
    · simp; omega
    · simp [timeEvs, List.append_assoc]

/-- C1 (counterexample): with hostname disclosure disabled the WebSocket
session does send an initial frame — the empty text frame — before any
echo, contrary to the claim that no initial frame at all is sent. -/
theorem wsDisabled_sendsEmptyFrame_cex :
    serveWebSocket false (Except.ok "myhost") [] ≠ []
    ∧ (serveWebSocket false (Except.ok "myhost") []).head?
      = some (Frame.mk textMessage []) := by
  constructor
  · simp [serveWebSocket]
  · rfl

/-- C1 (amended): the upgraded session always writes exactly one initial
text frame before the echo loop; its payload is empty when disclosure is
disabled, and carries the identity string or the failure placeholder
when disclosure is enabled. -/
theorem wsInitialFrame_amended (b : Bool) (hr : Except String String) (inbound : List Frame) :
    (serveWebSocket b hr inbound).head? = some (Frame.mk textMessage (wsGreetingPayload b hr))
    ∧ (serveWebSocket b hr inbound).tail = inbound
    ∧ wsGreetingPayload false hr = []
    ∧ (∀ host, wsGreetingPayload true (Except.ok host)
        = strBytes ("Request served by " ++ host))
    ∧ (∀ e, wsGreetingPayload true (Except.error e)
        = strBytes ("Server hostname unknown: " ++ e)) :=
  ⟨rfl, rfl, rfl, fun _ => rfl, fun _ => rfl⟩

/-- C2 (counterexample): rendering does consume the request body stream
irrecoverably — after `writeRequest` the body of the returned request is
empty, not the original bytes. -/
theorem writeRequest_consumesBody_cex :
    sampleRequest.body ≠ []
    ∧ (writeRequest sampleRequest).2.body = []
    ∧ (writeRequest sampleRequest).2.body ≠ sampleRequest.body := by
  refine ⟨by decide, rfl, by decide⟩

/-- C2 (amended): for a non-empty body the rendered output ends with a
blank line followed by the body bytes exactly (and equals head section,
blank line, body); for an empty body the section is omitted.  But the
renderer drains the body stream; only the `LOG_HTTP_BODY` capture in
`handler` replaces the consumed body with a re-playable buffered copy. -/
theorem writeRequest_roundTrip (req : Request) :
    (req.body ≠ [] →
      (strBytes "\n" ++ req.body) <:+ (writeRequest req).1
      ∧ (writeRequest req).1 = requestHead req ++ (strBytes "\n" ++ req.body))
    ∧ (req.body = [] → (writeRequest req).1 = requestHead req)
    ∧ (writeRequest req).2.body = []
    ∧ (logBodyCapture req).body = req.body := by
  refine ⟨?_, ?_, rfl, rfl⟩
  · intro hne
    have hlen : req.body.length > 0 := List.length_pos.mpr hne
    refine ⟨⟨requestHead req, ?_⟩, ?_⟩
    · simp [writeRequest, hlen, List.append_assoc]
    · simp [writeRequest, hlen, List.append_assoc]
  · intro he
    simp [writeRequest, he]

theorem writeRequest_roundTrip_witness :
    (strBytes "\n" ++ sampleRequest.body) <:+ (writeRequest sampleRequest).1
    ∧ (writeRequest sampleRequest).1
      = requestHead sampleRequest ++ (strBytes "\n" ++ sampleRequest.body) :=
  (writeRequest_roundTrip sampleRequest).1 (by decide)

/-- C3 (counterexample): in an SSE session with disclosure enabled and a
failing hostname lookup, the identity message is silently dropped: the
only event emitted before the ticker is the `request` event, and no
placeholder event is written. -/
theorem sseDropsPlaceholder_cex :
    (serveSSE true (Except.error "boom") (strBytes "ECHO") []).map SSEEvent.etype
      = ["request"]
    ∧ serveSSE true (Except.error "boom") (strBytes "ECHO") []
      = [⟨"request", strBytes "ECHO", 1⟩] := ⟨rfl, rfl⟩

/-- C3 (amended): when the hostname lookup fails with disclosure enabled,
the plain-HTTP response and the WebSocket greeting still carry the
textual placeholder with the error description embedded, but the SSE
session skips its `server` event entirely. -/
theorem hostnamePlaceholder_amended (e : String) (hdrs : Headers) (req : Request)
    (echoData : List UInt8) (ticks : List String) :
    (serveHTTP hdrs true (Except.error e) req).body
      = strBytes ("Server hostname unknown: " ++ e ++ "\n\n") ++ (writeRequest req).1
    ∧ wsGreetingPayload true (Except.error e)
      = strBytes ("Server hostname unknown: " ++ e)
    ∧ (serveSSE true (Except.error e) echoData ticks).map SSEEvent.etype
      = "request" :: ticks.map (fun _ => "time") := by
  refine ⟨rfl, rfl, ?_⟩
  have hs : serveSSE true (Except.error e) echoData ticks
      = [⟨"request", echoData, 1⟩] ++ timeEvs 1 ticks := by
    show (ticks.foldl (fun s t => writeSSE s "time" (strBytes t))
        (1, [⟨"request", echoData, 1⟩])).2 = _
    rw [sseFoldl_timeEvs]
  rw [hs]
  simp [timeEvs_map_etype]

/-- C5: SSE event ids are consecutive starting at 1 (the counter starts
at 0 and is incremented before each event), and the event sequence is the
optional `server` event (exactly when disclosure is enabled and the
lookup succeeded), then exactly one `request` event, then only `time`
events. -/
theorem sse_ids_and_order (b : Bool) (hr : Except String String)
    (echoData : List UInt8) (ticks : List String) :
    (serveSSE b hr echoData ticks).map SSEEvent.id
      = List.range' 1 (serveSSE b hr echoData ticks).length
    ∧ (serveSSE b hr echoData ticks).map SSEEvent.etype
      = (match b, hr with
          | true, .ok _ => ["server", "request"]
          | _, _ => ["request"]) ++ ticks.map (fun _ => "time") := by
  have range1 : List.range' 1 1 ++ List.range' 2 ticks.length
      = List.range' 1 (ticks.length + 1) := by
    have := List.range'_append 1 1 ticks.length 1
    simpa using this
  have range2 : List.range' 1 2 ++ List.range' 3 ticks.length
      = List.range' 1 (ticks.length + 2) := by
    have := List.range'_append 1 2 ticks.length 1
    simpa using this
  cases b with
  | true =>
    cases hr with
    | ok host =>
      have hs : serveSSE true (Except.ok host) echoData ticks
          = [⟨"server", strBytes host, 1⟩, ⟨"request", echoData, 2⟩] ++ timeEvs 2 ticks := by
        show (ticks.foldl (fun s t => writeSSE s "time" (strBytes t))
            (2, ([⟨"server", strBytes host, 1⟩, ⟨"request", echoData, 2⟩] : List SSEEvent))).2 = _
        rw [sseFoldl_timeEvs]
      constructor
      · rw [hs]
        have hlen : (([⟨"server", strBytes host, 1⟩, ⟨"request", echoData, 2⟩] : List SSEEvent)
            ++ timeEvs 2 ticks).length = ticks.length + 2 := by
          simp [timeEvs_length]
        rw [hlen, List.map_append, timeEvs_map_id, ← range2]
        rfl
      · rw [hs, List.map_append, timeEvs_map_etype]
        rfl
    | error e =>
      have hs : serveSSE true (Except.error e) echoData ticks
          = [⟨"request", echoData, 1⟩] ++ timeEvs 1 ticks := by
        show (ticks.foldl (fun s t => writeSSE s "time" (strBytes t))
            (1, ([⟨"request", echoData, 1⟩] : List SSEEvent))).2 = _
        rw [sseFoldl_timeEvs]
      constructor
      · rw [hs]
        have hlen : (([⟨"request", echoData, 1⟩] : List SSEEvent) ++ timeEvs 1 ticks).length
            = ticks.length + 1 := by
          simp [timeEvs_length]
        rw [hlen, List.map_append, timeEvs_map_id, ← range1]
        rfl
      · rw [hs, List.map_append, timeEvs_map_etype]
        rfl
  | false =>
    cases hr with
    | ok host =>
      have hs : serveSSE false (Except.ok host) echoData ticks
          = [⟨"request", echoData, 1⟩] ++ timeEvs 1 ticks := by
        show (ticks.foldl (fun s t => writeSSE s "time" (strBytes t))
            (1, ([⟨"request", echoData, 1⟩] : List SSEEvent))).2 = _
        rw [sseFoldl_timeEvs]
      constructor
      · rw [hs]
        have hlen : (([⟨"request", echoData, 1⟩] : List SSEEvent) ++ timeEvs 1 ticks).length
            = ticks.length + 1 := by
          simp [timeEvs_length]
        rw [hlen, List.map_append, timeEvs_map_id, ← range1]
        rfl
      · rw [hs, List.map_append, timeEvs_map_etype]
        rfl
    | error e =>
      have hs : serveSSE false (Except.error e) echoData ticks
          = [⟨"request", echoData, 1⟩] ++ timeEvs 1 ticks := by
        show (ticks.foldl (fun s t => writeSSE s "time" (strBytes t))
            (1, ([⟨"request", echoData, 1⟩] : List SSEEvent))).2 = _
        rw [sseFoldl_timeEvs]
      constructor
      · rw [hs]
        have hlen : (([⟨"request", echoData, 1⟩] : List SSEEvent) ++ timeEvs 1 ticks).length
            = ticks.length + 1 := by
          simp [timeEvs_length]
        rw [hlen, List.map_append, timeEvs_map_id, ← range1]
        rfl
      · rw [hs, List.map_append, timeEvs_map_etype]
        rfl

/-- C6: the header override, when `Get` yields a non-empty value, takes
precedence over the environment flag; disclosure is disabled exactly
when the effective value case-insensitively equals `"false"`; absence of
both sources (empty effective value) enables disclosure. -/
theorem hostnameDisclosure_resolution (env : Env) (h : Headers) :
    (headerGet h "X-Send-Server-Hostname" ≠ "" →
      sendServerHostnameFlag env h
        = !(eqFold (headerGet h "X-Send-Server-Hostname") "false"))
    ∧ (headerGet h "X-Send-Server-Hostname" = "" →
      sendServerHostnameFlag env h
        = !(eqFold (envGet env "SEND_SERVER_HOSTNAME") "false"))
    ∧ (sendServerHostnameFlag env h = false
        ↔ eqFold (effectiveHostnameSetting env h) "false" = true)
    ∧ (effectiveHostnameSetting env h = "" → sendServerHostnameFlag env h = true) := by
  refine ⟨?_, ?_, ?_, ?_⟩
  · intro hne
    have hb : (headerGet h "X-Send-Server-Hostname" != "") = true := bne_iff_ne.mpr hne
    unfold sendServerHostnameFlag effectiveHostnameSetting
    rw [if_pos hb]
  · intro he
    unfold sendServerHostnameFlag effectiveHostnameSetting
    rw [he]
    rfl
  · unfold sendServerHostnameFlag
    simp
  · intro he
    unfold sendServerHostnameFlag
    rw [he]
    decide

theorem hostnameDisclosure_resolution_witness :
    (sendServerHostnameFlag envSampleC6 headerSampleC6
      = !(eqFold (headerGet headerSampleC6 "X-Send-Server-Hostname") "false"))
    ∧ sendServerHostnameFlag envSampleC6 headerSampleC6 = false :=
  ⟨(hostnameDisclosure_resolution envSampleC6 headerSampleC6).1 (by decide), by decide⟩

theorem find?_key_map {g : (String × List String) → (String × List String)}
    (hg : ∀ p, (g p).1 = p.1) (hs : Headers) (k : String) :
    (hs.map g).find? (fun p => p.1 == k) = (hs.find? (fun p => p.1 == k)).map g := by
  rw [List.find?_map]
  have hfun : ((fun p : String × List String => p.1 == k) ∘ g)
      = (fun p => p.1 == k) := by
    funext p
    simp [Function.comp, hg p]
  rw [hfun]

theorem lookup_setHeader_self (hs : Headers) (k v : String) :
    lookupValues (setHeader hs k v) (canonicalMIMEHeaderKey k) = [v] := by
  have hg : ∀ p : String × List String,
      ((fun p : String × List String =>
        if p.1 == canonicalMIMEHeaderKey k then (canonicalMIMEHeaderKey k, [v]) else p) p).1
        = p.1 := by
    intro p
    by_cases hp : p.1 == canonicalMIMEHeaderKey k
    · have : p.1 = canonicalMIMEHeaderKey k := by simpa using hp
      simp [hp, this]
    · simp [hp]
  unfold setHeader
  by_cases hany : hs.any (fun p => p.1 == canonicalMIMEHeaderKey k)
  · rw [if_pos hany]
    unfold lookupValues
    rw [find?_key_map hg]
    have hsome : (hs.find? (fun p => p.1 == canonicalMIMEHeaderKey k)).isSome := by
      rw [List.find?_isSome]
      obtain ⟨x, hx, hpx⟩ := List.any_eq_true.mp hany
      exact ⟨x, hx, hpx⟩
    obtain ⟨e, heq⟩ := Option.isSome_iff_exists.mp hsome
    have hpe := List.find?_some heq
    have he1 : e.1 = canonicalMIMEHeaderKey k := by simpa using hpe
    rw [heq]
    simp [hpe, he1]
  · rw [if_neg hany]
    unfold lookupValues
    rw [List.find?_append]
    have hnone : hs.find? (fun p => p.1 == canonicalMIMEHeaderKey k) = none := by
      rw [List.find?_eq_none]
      intro x hx hpx
      exact absurd (List.any_eq_true.mpr ⟨x, hx, hpx⟩) hany
    rw [hnone]
    simp

theorem lookup_setHeader_other (hs : Headers) (k v ck' : String)
    (hne : ck' ≠ canonicalMIMEHeaderKey k) :
    lookupValues (setHeader hs k v) ck' = lookupValues hs ck' := by
  have hg : ∀ p : String × List String,
      ((fun p : String × List String =>
        if p.1 == canonicalMIMEHeaderKey k then (canonicalMIMEHeaderKey k, [v]) else p) p).1
        = p.1 := by
    intro p
    by_cases hp : p.1 == canonicalMIMEHeaderKey k
    · have : p.1 = canonicalMIMEHeaderKey k := by simpa using hp
      simp [hp, this]
    · simp [hp]
  unfold setHeader
  by_cases hany : hs.any (fun p => p.1 == canonicalMIMEHeaderKey k)
  · rw [if_pos hany]
    unfold lookupValues
    rw [find?_key_map hg]
    cases heq : hs.find? (fun p => p.1 == ck') with
    | none => simp
    | some e =>
      have hpe := List.find?_some heq
      have he1 : e.1 = ck' := by simpa using hpe
      have hnot : e.1 ≠ canonicalMIMEHeaderKey k := by
        rw [he1]
        exact hne
      simp [hnot]
  · rw [if_neg hany]
    unfold lookupValues
    rw [List.find?_append]
    have hsingle : [(canonicalMIMEHeaderKey k, [v])].find? (fun p => p.1 == ck') = none := by
      have hb : ((canonicalMIMEHeaderKey k, [v]).1 == ck') = false :=
        beq_eq_false_iff_ne.mpr (fun hcontra => hne hcontra.symm)
      simp [List.find?, hb]
    rw [hsingle]
    cases hs.find? (fun p => p.1 == ck') <;> rfl

theorem lookup_addHeader_mono (hs : Headers) (k v ck' : String) (x : String)
    (hx : x ∈ lookupValues hs ck') :
    x ∈ lookupValues (addHeader hs k v) ck' := by
  have hg : ∀ p : String × List String,
      ((fun p : String × List String =>
        if p.1 == canonicalMIMEHeaderKey k then (p.1, p.2 ++ [v]) else p) p).1 = p.1 := by
    intro p
    by_cases hp : p.1 == canonicalMIMEHeaderKey k
    · simp [hp]
    · simp [hp]
  unfold addHeader
  by_cases hany : hs.any (fun p => p.1 == canonicalMIMEHeaderKey k)
  · rw [if_pos hany]
    unfold lookupValues at hx ⊢
    rw [find?_key_map hg]
    cases heq : hs.find? (fun p => p.1 == ck') with
    | none => rw [heq] at hx; simp at hx
    | some e =>
      rw [heq] at hx
      simp at hx
      by_cases hek : e.1 = canonicalMIMEHeaderKey k
      · simp [hek]
        exact Or.inl hx
      · simp [hek]
        exact hx
  · rw [if_neg hany]
    unfold lookupValues at hx ⊢
    rw [List.find?_append]
    cases heq : hs.find? (fun p => p.1 == ck') with
    | none => rw [heq] at hx; simp at hx
    | some e =>
      rw [heq] at hx
      simp at hx
      simp [hx]

theorem lookup_addHeader_self (hs : Headers) (k v : String) :
    v ∈ lookupValues (addHeader hs k v) (canonicalMIMEHeaderKey k) := by
  have hg : ∀ p : String × List String,
      ((fun p : String × List String =>
        if p.1 == canonicalMIMEHeaderKey k then (p.1, p.2 ++ [v]) else p) p).1 = p.1 := by
    intro p
    by_cases hp : p.1 == canonicalMIMEHeaderKey k
    · simp [hp]
    · simp [hp]
  unfold addHeader
  by_cases hany : hs.any (fun p => p.1 == canonicalMIMEHeaderKey k)
  · rw [if_pos hany]
    unfold lookupValues
    rw [find?_key_map hg]
    have hsome : (hs.find? (fun p => p.1 == canonicalMIMEHeaderKey k)).isSome := by
      rw [List.find?_isSome]
      obtain ⟨x, hx, hpx⟩ := List.any_eq_true.mp hany
      exact ⟨x, hx, hpx⟩
    obtain ⟨e, heq⟩ := Option.isSome_iff_exists.mp hsome
    have hpe := List.find?_some heq
    have he1 : e.1 = canonicalMIMEHeaderKey k := by simpa using hpe
    rw [heq]
    simp [hpe, he1]
  · rw [if_neg hany]
    unfold lookupValues
    rw [List.find?_append]
    have hnone : hs.find? (fun p => p.1 == canonicalMIMEHeaderKey k) = none := by
      rw [List.find?_eq_none]
      intro x hx hpx
      exact absurd (List.any_eq_true.mpr ⟨x, hx, hpx⟩) hany
    rw [hnone]
    simp

/-- C8: dispatch is first-match-wins — WebSocket upgrade beats everything
regardless of path, then final segment `.ws`, then `.sse`, and otherwise
the plain echo answers 200 with `Content-Type: text/plain`, the optional
hostname line, then the rendered request. -/
theorem dispatch_firstMatch (req : Request) :
    (req.wsUpgrade = true → dispatch req = EchoRoute.websocket)
    ∧ (req.wsUpgrade = false → goPathBase req.urlPath = ".ws" →
        dispatch req = EchoRoute.frontend)
    ∧ (req.wsUpgrade = false → goPathBase req.urlPath ≠ ".ws" →
        goPathBase req.urlPath = ".sse" → dispatch req = EchoRoute.sse)
    ∧ (req.wsUpgrade = false → goPathBase req.urlPath ≠ ".ws" →
        goPathBase req.urlPath ≠ ".sse" →
        dispatch req = EchoRoute.plainHTTP
        ∧ ∀ (hdrs : Headers) (ssh : Bool) (hostname : Except String String),
            (serveHTTP hdrs ssh hostname req).status = 200
            ∧ "text/plain" ∈ lookupValues (serveHTTP hdrs ssh hostname req).headers
                "Content-Type"
            ∧ (serveHTTP hdrs ssh hostname req).body
              = (if ssh then hostnameLine hostname else []) ++ (writeRequest req).1) := by
  refine ⟨?_, ?_, ?_, ?_⟩
  · intro hw
    simp [dispatch, hw]
  · intro hw hws
    simp [dispatch, hw, hws]
  · intro hw hws hsse
    simp [dispatch, hw, hws, hsse]
  · intro hw hws hsse
    refine ⟨by simp [dispatch, hw, hws, hsse], ?_⟩
    intro hdrs ssh hostname
    refine ⟨rfl, ?_, rfl⟩
    have h1 := lookup_addHeader_self hdrs "Content-Type" "text/plain"
    have hc : canonicalMIMEHeaderKey "Content-Type" = "Content-Type" := by decide
    rw [hc] at h1
    exact h1

theorem dispatch_firstMatch_witness :
    dispatch sampleRequest = EchoRoute.plainHTTP :=
  ((dispatch_firstMatch sampleRequest).2.2.2 rfl (by decide) (by decide)).1

/-- C10: GET `/throw` is routed to its own handler, not the echo
dispatcher; a `code` parameter parsing to an integer within 100..599
forces exactly that status with a JSON body naming it, and a missing,
non-numeric or out-of-range parameter yields 400 with the fixed invalid
body. -/
theorem throwEndpoint_spec (s : String) :
    (routeFor "GET" "/throw" = RouteTarget.throwRoute
      ∧ routeFor "GET" "/throw" ≠ RouteTarget.echoDefault)
    ∧ (goAtoi s = none → throwErrorHandler s = (400, invalidCodeBody))
    ∧ (∀ code : Int, goAtoi s = some code → 100 ≤ code → code ≤ 599 →
        throwErrorHandler s = (code.toNat, forcedErrorBody code))
    ∧ (∀ code : Int, goAtoi s = some code → (code < 100 ∨ 599 < code) →
        throwErrorHandler s = (400, invalidCodeBody))
    ∧ throwErrorHandler "" = (400, invalidCodeBody) := by
  refine ⟨⟨by decide, by decide⟩, ?_, ?_, ?_, by decide⟩
  · intro h
    simp [throwErrorHandler, h]
  · intro code h h1 h2
    have hcond : ¬(code < 100 ∨ code > 599) := by omega
    simp [throwErrorHandler, h, hcond]
  · intro code h hko
    have hcond : code < 100 ∨ code > 599 := by omega
    simp [throwErrorHandler, h, hcond]

theorem throwEndpoint_spec_witness :
    throwErrorHandler "250" = ((250 : Int).toNat, forcedErrorBody 250) :=
  (throwEndpoint_spec "250").2.2.1 250 (by decide) (by decide) (by decide)

theorem find?_eq_some_of_unique {α : Type} {p : α → Bool} :
    ∀ {l : List α} {e : α}, e ∈ l → p e = true → (∀ x ∈ l, p x = true → x = e) →
      l.find? p = some e := by
  intro l
  induction l with
  | nil => intro e he _ _; exact absurd he (List.not_mem_nil e)
  | cons a as ih =>
    intro e he hpe huniq
    by_cases hpa : p a = true
    · have hae : a = e := huniq a (List.mem_cons_self a as) hpa
      rw [List.find?_cons_of_pos _ hpa, hae]
    · have he' : e ∈ as := by
        cases List.mem_cons.mp he with
        | inl hh => exact absurd (hh ▸ hpe) hpa
        | inr hh => exact hh
      rw [List.find?_cons_of_neg _ (by simpa using hpa)]
      exact ih he' hpe (fun x hx hpx => huniq x (List.mem_cons_of_mem a hx) hpx)

theorem find?_key_perm {h h' : Headers} (hnodup : (h.map Prod.fst).Nodup)
    (hperm : h.Perm h') (k : String) :
    h.find? (fun p => p.1 == k) = h'.find? (fun p => p.1 == k) := by
  cases hfind : h.find? (fun p => p.1 == k) with
  | none =>
    symm
    rw [List.find?_eq_none] at hfind ⊢
    intro x hx
    exact hfind x (hperm.mem_iff.mpr hx)
  | some e =>
    have hpe := List.find?_some hfind
    have he : e ∈ h := List.mem_of_find?_eq_some hfind
    symm
    apply find?_eq_some_of_unique (hperm.mem_iff.mp he) hpe
    intro x hx hpx
    have hxh : x ∈ h := hperm.mem_iff.mpr hx
    have hx1 : x.1 = k := by simpa using hpx
    have he1 : e.1 = k := by simpa using hpe
    exact List.inj_on_of_nodup_map hnodup hxh he (by rw [hx1, he1])

theorem lookupValues_perm {h h' : Headers} (hnodup : (h.map Prod.fst).Nodup)
    (hperm : h.Perm h') (k : String) :
    lookupValues h' k = lookupValues h k := by
  unfold lookupValues
  rw [find?_key_perm hnodup hperm k]

theorem sortedKeys_perm {h h' : Headers} (hperm : h.Perm h') :
    sortedKeys h' = sortedKeys h := by
  unfold sortedKeys
  exact List.eq_of_perm_of_sorted
    ((List.perm_insertionSort _ _).trans
      ((hperm.map Prod.fst).symm.trans (List.perm_insertionSort _ _).symm))
    (List.sorted_insertionSort _ _) (List.sorted_insertionSort _ _)

theorem headerLines_perm {h h' : Headers} (hnodup : (h.map Prod.fst).Nodup)
    (hperm : h.Perm h') :
    headerLines h' = headerLines h := by
  unfold headerLines
  rw [sortedKeys_perm hperm]
  have hfun : (fun key => (lookupValues h' key).map (fun v => (key, v)))
      = (fun key => (lookupValues h key).map (fun v => (key, v))) := by
    funext key
    rw [lookupValues_perm hnodup hperm]
  rw [hfun]

theorem pairwise_const_le (k : String) (l : List String) :
    (l.map (fun _ => k)).Pairwise (fun a b : String => a ≤ b) := by
  induction l with
  | nil => simp
  | cons x xs ih =>
    refine List.Pairwise.cons ?_ ih
    intro b hb
    have hb' : b = k := by
      obtain ⟨a, _, hba⟩ := List.mem_map.mp hb
      exact hba.symm
    rw [hb']

theorem sorted_flatten_const_blocks (f : String → List String) :
    ∀ (keys : List String), keys.Sorted (fun a b : String => a ≤ b) →
      ((keys.map (fun k => (f k).map (fun _ => k))).flatten).Sorted
        (fun a b : String => a ≤ b) := by
  intro keys
  induction keys with
  | nil => intro _; simp [List.Sorted]
  | cons k ks ih =>
    intro hsorted
    obtain ⟨hrel, htail⟩ := List.sorted_cons.mp hsorted
    rw [List.map_cons, List.flatten_cons]
    apply List.pairwise_append.mpr
    refine ⟨pairwise_const_le k (f k), ih htail, ?_⟩
    intro a ha b hb
    have ha' : a = k := by
      obtain ⟨x, _, hxa⟩ := List.mem_map.mp ha
      exact hxa.symm
    obtain ⟨l, hl, hbl⟩ := List.mem_flatten.mp hb
    obtain ⟨k', hk', rfl⟩ := List.mem_map.mp hl
    have hb' : b = k' := by
      obtain ⟨x, _, hxb⟩ := List.mem_map.mp hbl
      exact hxb.symm
    rw [ha', hb']
    exact hrel k' hk'

theorem headerLines_names_sorted (h : Headers) :
    ((headerLines h).map Prod.fst).Sorted (fun a b : String => a ≤ b) := by
  unfold headerLines
  rw [List.map_flatten, List.map_map]
  have hfun : (List.map Prod.fst ∘ fun key => (lookupValues h key).map (fun v => (key, v)))
      = (fun key => (lookupValues h key).map (fun _ => key)) := by
    funext key
    simp [Function.comp, List.map_map]
  rw [hfun]
  exact sorted_flatten_const_blocks (lookupValues h) (sortedKeys h)
    (List.sorted_insertionSort _ _)

theorem filter_flatten_blocks (f : String → List String) (k0 : String) :
    ∀ (keys : List String), keys.Nodup → k0 ∈ keys →
      (((keys.map (fun k => (f k).map (fun v => (k, v)))).flatten.filter
          (fun p => p.1 == k0)).map Prod.snd) = f k0 := by
  intro keys
  induction keys with
  | nil => intro _ hmem; exact absurd hmem (List.not_mem_nil k0)
  | cons k ks ih =>
    intro hnd hmem
    rw [List.map_cons, List.flatten_cons, List.filter_append, List.map_append]
    by_cases hk : k = k0
    · subst hk
      have h1 : ((f k).map (fun v => (k, v))).filter (fun p => p.1 == k)
          = (f k).map (fun v => (k, v)) := by
        apply List.filter_eq_self.mpr
        intro p hp
        obtain ⟨v, _, hpv⟩ := List.mem_map.mp hp
        rw [← hpv]
        simp
      have hknotin : k ∉ ks := (List.nodup_cons.mp hnd).1
      have h2 : ((ks.map (fun k' => (f k').map (fun v => (k', v)))).flatten.filter
          (fun p => p.1 == k)) = [] := by
        apply List.filter_eq_nil_iff.mpr
        intro p hp
        obtain ⟨l, hl, hpl⟩ := List.mem_flatten.mp hp
        obtain ⟨k', hk', rfl⟩ := List.mem_map.mp hl
        obtain ⟨v, _, hpv⟩ := List.mem_map.mp hpl
        rw [← hpv]
        simp
        intro hcontra
        exact hknotin (hcontra ▸ hk')
      rw [h1, h2]
      simp [List.map_map, Function.comp]
    · have h1 : ((f k).map (fun v => (k, v))).filter (fun p => p.1 == k0) = [] := by
        apply List.filter_eq_nil_iff.mpr
        intro p hp
        obtain ⟨v, _, hpv⟩ := List.mem_map.mp hp
        rw [← hpv]
        simpa using hk
      have hmem' : k0 ∈ ks := by
        cases List.mem_cons.mp hmem with
        | inl hh => exact absurd hh.symm hk
        | inr hh => exact hh
      rw [h1]
      simp only [List.map_nil, List.nil_append]
      exact ih (List.nodup_cons.mp hnd).2 hmem'

/-- C4: the rendered header block is sorted lexicographically by name,
keeps the values of a repeated header in arrival order, and is invariant
under any permutation of the headers' arrival order. -/
theorem headers_sorted_deterministic (h h' : Headers)
    (hnodup : (h.map Prod.fst).Nodup) (hperm : h.Perm h') :
    printHeaders h' = printHeaders h
    ∧ ((headerLines h).map Prod.fst).Sorted (fun a b : String => a ≤ b)
    ∧ ∀ kv ∈ h, ((headerLines h).filter (fun p => p.1 == kv.1)).map Prod.snd = kv.2 := by
  refine ⟨?_, headerLines_names_sorted h, ?_⟩
  · unfold printHeaders
    rw [headerLines_perm hnodup hperm]
  · intro kv hkv
    have hknd : (sortedKeys h).Nodup :=
      ((List.perm_insertionSort (fun a b : String => a ≤ b) (h.map Prod.fst)).nodup_iff).mpr
        hnodup
    have hkmem : kv.1 ∈ sortedKeys h := by
      have h1 : kv.1 ∈ h.map Prod.fst := List.mem_map_of_mem Prod.fst hkv
      exact ((List.perm_insertionSort _ _).mem_iff).mpr h1
    have hlook : lookupValues h kv.1 = kv.2 := by
      unfold lookupValues
      rw [find?_eq_some_of_unique hkv (by simp) ?_]
      · rfl
      · intro x hx hpx
        have hx1 : x.1 = kv.1 := by simpa using hpx
        exact List.inj_on_of_nodup_map hnodup hx hkv hx1
    unfold headerLines
    rw [filter_flatten_blocks (lookupValues h) kv.1 (sortedKeys h) hknd hkmem, hlook]

theorem headers_sorted_deterministic_witness :
    printHeaders headersSampleB = printHeaders headersSampleA :=
  (headers_sorted_deterministic headersSampleA headersSampleB (by decide)
    (List.Perm.swap _ _ _)).1

theorem string_mk_data (s : String) : String.mk s.data = s := by
  cases s
  rfl

theorem char_toNat_ofNat (n : Nat) (h : n < 0xd800) : (Char.ofNat n).toNat = n := by
  have hv : n.isValidChar := Or.inl h
  simp [Char.ofNat, hv, Char.ofNatAux, Char.toNat, UInt32.toNat, BitVec.toNat_ofNatLt]

theorem char_ofNat_toNat (c : Char) : Char.ofNat c.toNat = c := by
  have hv : c.toNat.isValidChar := c.valid
  apply Char.ext
  apply UInt32.ext
  rw [show Char.ofNat c.toNat = Char.ofNatAux c.toNat hv from dif_pos hv]
  simp [Char.ofNatAux, UInt32.toNat, BitVec.toNat_ofNatLt, Char.toNat]

theorem asciiLower_lowerChar (c : Char) :
    asciiLowerChar (asciiLowerChar c) = asciiLowerChar c := by
  unfold asciiLowerChar
  by_cases h : 65 ≤ c.toNat ∧ c.toNat ≤ 90
  · rw [if_pos h]
    have ht : (Char.ofNat (c.toNat + 32)).toNat = c.toNat + 32 :=
      char_toNat_ofNat _ (by omega)
    rw [ht, if_neg (by omega)]
  · simp only [if_neg h]

theorem asciiLower_upperChar (c : Char) :
    asciiLowerChar (asciiUpperChar c) = asciiLowerChar c := by
  unfold asciiUpperChar asciiLowerChar
  by_cases h : 97 ≤ c.toNat ∧ c.toNat ≤ 122
  · rw [if_pos h]
    have ht : (Char.ofNat (c.toNat - 32)).toNat = c.toNat - 32 :=
      char_toNat_ofNat _ (by omega)
    rw [ht, if_pos (by omega), if_neg (by omega)]
    have h32 : c.toNat - 32 + 32 = c.toNat := by omega
    rw [h32, char_ofNat_toNat]
  · simp only [if_neg h]

theorem canonChars_lower (cs : List Char) :
    ∀ u, (canonChars u cs).map asciiLowerChar = cs.map asciiLowerChar := by
  induction cs with
  | nil => intro u; rfl
  | cons c cs ih =>
    intro u
    cases u with
    | true =>
      show asciiLowerChar (asciiUpperChar c) :: (canonChars _ cs).map asciiLowerChar = _
      rw [asciiLower_upperChar, ih]
      rfl
    | false =>
      show asciiLowerChar (asciiLowerChar c) :: (canonChars _ cs).map asciiLowerChar = _
      rw [asciiLower_lowerChar, ih]
      rfl

theorem canonicalMIMEHeaderKey_lower (s : String) :
    asciiLowerStr (canonicalMIMEHeaderKey s) = asciiLowerStr s := by
  unfold canonicalMIMEHeaderKey
  by_cases h : s.data.all isTokenChar
  · rw [if_pos h]
    unfold asciiLowerStr
    rw [show (String.mk (canonChars true s.data)).data = canonChars true s.data from rfl]
    rw [canonChars_lower]
  · rw [if_neg h]

theorem sendHeaderName_append (name : String) :
    sendHeaderName ("SEND_HEADER_" ++ name) = some name := by
  unfold sendHeaderName
  rw [String.data_append]
  rw [if_pos (List.take_left _ _)]
  rw [List.drop_left, string_mk_data]

theorem foldl_applySendHeader_preserve (ck value : String) :
    ∀ (e : Env) (hs : Headers),
      (∀ kv ∈ e, ∀ nm, sendHeaderName kv.1 = some nm →
        canonicalMIMEHeaderKey (underscoreToHyphen nm) ≠ ck) →
      lookupValues hs ck = [value] →
      lookupValues (e.foldl applySendHeader hs) ck = [value] := by
  intro e
  induction e with
  | nil => intro hs _ hbase; exact hbase
  | cons kv rest ih =>
    intro hs hlater hbase
    rw [List.foldl_cons]
    apply ih
    · intro kv' hkv' nm hnm
      exact hlater kv' (List.mem_cons_of_mem _ hkv') nm hnm
    · unfold applySendHeader
      cases hsh : sendHeaderName kv.1 with
      | none => exact hbase
      | some nm =>
        have hne := hlater kv (List.mem_cons_self _ _) nm hsh
        rw [lookup_setHeader_other _ _ _ _ (fun hcontra => hne hcontra.symm)]
        exact hbase

theorem buildSendHeaders_lookup (e₁ e₂ : Env) (name value : String)
    (hlater : ∀ kv ∈ e₂, ∀ nm, sendHeaderName kv.1 = some nm →
      canonicalMIMEHeaderKey (underscoreToHyphen nm)
        ≠ canonicalMIMEHeaderKey (underscoreToHyphen name)) :
    lookupValues (buildSendHeaders (e₁ ++ ("SEND_HEADER_" ++ name, value) :: e₂) [])
      (canonicalMIMEHeaderKey (underscoreToHyphen name)) = [value] := by
  unfold buildSendHeaders
  rw [List.foldl_append, List.foldl_cons]
  have hmid : applySendHeader (List.foldl applySendHeader [] e₁)
      ("SEND_HEADER_" ++ name, value)
      = setHeader (List.foldl applySendHeader [] e₁) (underscoreToHyphen name) value := by
    unfold applySendHeader
    rw [sendHeaderName_append]
  rw [hmid]
  exact foldl_applySendHeader_preserve _ value e₂ _ hlater (lookup_setHeader_self _ _ _)

/-- C7 (counterexample): the injected header does not reach every
dispatch target.  With `SEND_HEADER_X_FOO=bar` in the environment, a
WebSocket-upgrade request's response carries no `X-Foo` header at all —
the hijacking handshake discards the response-writer map — and on the
SSE branch an injected `Content-Type` is overwritten by the session's
own `Set`. -/
theorem sendHeader_notAllTargets_cex :
    lookupValues (handler [("SEND_HEADER_X_FOO", "bar")] (Except.ok "h")
      wsSampleRequest [] []).1 "X-Foo" = []
    ∧ (handler [("SEND_HEADER_X_FOO", "bar")] (Except.ok "h") wsSampleRequest [] []).1
      = wsHandshakeHeaders
    ∧ lookupValues (handler [("SEND_HEADER_CONTENT_TYPE", "foo")] (Except.ok "h")
      sseSampleRequest [] []).1 "Content-Type" = ["text/event-stream"] := by
  exact ⟨by decide, by decide, by decide⟩

/-- C7 (amended): every `SEND_HEADER_<NAME>` variable is `Set` on the
response-writer header map before dispatch, so the plain-HTTP, frontend
and SSE responses carry a header whose name is `<NAME>` with underscores
replaced by hyphens (up to the ASCII case adjustment of header
canonicalisation) and whose value is the variable's value — provided no
later prefixed variable maps to the same canonical name (`Set`
overwrites) and the name is not one of the four headers the SSE session
itself `Set`s.  On the WebSocket target the upgrade handshake discards
the response-writer map, so the upgrade response carries only the
handshake headers and no injected header.  The environment is a
per-request parameter of `handler`, matching the re-read of
`os.Environ()` on each request. -/
theorem sendHeader_injection (e₁ e₂ : Env) (name value : String) (req : Request)
    (hostname : Except String String) (inbound : List Frame) (ticks : List String)
    (hlater : ∀ kv ∈ e₂, ∀ nm, sendHeaderName kv.1 = some nm →
      canonicalMIMEHeaderKey (underscoreToHyphen nm)
        ≠ canonicalMIMEHeaderKey (underscoreToHyphen name))
    (hfixed : canonicalMIMEHeaderKey (underscoreToHyphen name) ∉
      (["Content-Type", "Cache-Control", "Connection",
        "Access-Control-Allow-Origin"] : List String)) :
    (dispatch req ≠ EchoRoute.websocket →
      value ∈ lookupValues
        (handler (e₁ ++ ("SEND_HEADER_" ++ name, value) :: e₂) hostname req inbound ticks).1
        (canonicalMIMEHeaderKey (underscoreToHyphen name)))
    ∧ (dispatch req = EchoRoute.websocket →
      (handler (e₁ ++ ("SEND_HEADER_" ++ name, value) :: e₂) hostname req inbound ticks).1
        = wsHandshakeHeaders)
    ∧ asciiLowerStr (canonicalMIMEHeaderKey (underscoreToHyphen name))
      = asciiLowerStr (underscoreToHyphen name) := by
  simp only [List.mem_cons, List.mem_singleton, not_or] at hfixed
  obtain ⟨hct, hcc, hconn, hacao, -⟩ := hfixed
  have hbuild := buildSendHeaders_lookup e₁ e₂ name value hlater
  set env := e₁ ++ ("SEND_HEADER_" ++ name, value) :: e₂ with henv
  set ck := canonicalMIMEHeaderKey (underscoreToHyphen name) with hck
  have hmem : value ∈ lookupValues (buildSendHeaders env []) ck := by
    rw [hbuild]
    exact List.mem_singleton.mpr rfl
  have hreq : (if envGet env "LOG_HTTP_BODY" != "" then logBodyCapture req else req)
      = req := by
    split <;> rfl
  refine ⟨?_, ?_, canonicalMIMEHeaderKey_lower _⟩
  · intro hnws
    simp only [handler, hreq]
    cases hdisp : dispatch req with
    | websocket => exact absurd hdisp hnws
    | frontend => exact lookup_addHeader_mono _ _ _ _ _ hmem
    | sse =>
      show value ∈ lookupValues (sseHeaders (buildSendHeaders env [])) ck
      have hc1 : canonicalMIMEHeaderKey "Content-Type" = "Content-Type" := by decide
      have hc2 : canonicalMIMEHeaderKey "Cache-Control" = "Cache-Control" := by decide
      have hc3 : canonicalMIMEHeaderKey "Connection" = "Connection" := by decide
      have hc4 : canonicalMIMEHeaderKey "Access-Control-Allow-Origin"
          = "Access-Control-Allow-Origin" := by decide
      have hstep : lookupValues (sseHeaders (buildSendHeaders env [])) ck
          = lookupValues (buildSendHeaders env []) ck := by
        unfold sseHeaders
        rw [lookup_setHeader_other _ _ _ _ (by rw [hc4]; exact hacao),
          lookup_setHeader_other _ _ _ _ (by rw [hc3]; exact hconn),
          lookup_setHeader_other _ _ _ _ (by rw [hc2]; exact hcc),
          lookup_setHeader_other _ _ _ _ (by rw [hc1]; exact hct)]
      rw [hstep]
      exact hmem
    | plainHTTP =>
      show value ∈ lookupValues
        (serveHTTP (buildSendHeaders env []) (sendServerHostnameFlag env req.header)
          hostname req).headers ck
      show value ∈ lookupValues
        (addHeader (buildSendHeaders env []) "Content-Type" "text/plain") ck
      exact lookup_addHeader_mono _ _ _ _ _ hmem
  · intro hws
    simp only [handler, hreq, hws]

theorem sendHeader_injection_witness :
    "bar" ∈ lookupValues
      (handler ([] ++ ("SEND_HEADER_" ++ "X_FOO", "bar") :: []) (Except.ok "h")
        sampleRequest [] []).1
      (canonicalMIMEHeaderKey (underscoreToHyphen "X_FOO")) :=
  (sendHeader_injection [] [] "X_FOO" "bar" sampleRequest (Except.ok "h") [] []
    (by simp) (by decide)).1 (by decide)

/-- C9: the gRPC Echo handler returns the request message unchanged, byte
for byte, with a nil error. -/
theorem grpcEcho_identity (s : String) :
    (Echo ⟨s⟩).1.message = s
    ∧ strBytes ((Echo ⟨s⟩).1.message) = strBytes s
    ∧ (Echo ⟨s⟩).2 = none :=
  ⟨rfl, rfl, rfl⟩

end EchoServer
